import Mathlib

/-!
# Verification of the gobpftool core

A shallow embedding of the gobpftool repository's core logic
(program/map enumeration, map iteration, pinned-path scanning, hex
utilities, and the error-classification helpers of `pkg/errors`),
together with theorems settling the frozen claims about it.

The cilium/ebpf capability layer (the "Capability Primitive") is external
to the repository; it is represented by environment records of abstract
response functions.  Go byte slices are `List Nat` (with explicit `< 256`
bounds where they matter), Go strings are `String` or `List Char`,
`time.Time` is `Int` (nanoseconds on an arbitrary epoch), and Go errors
are the structured `GoError` type below, whose message rendering mirrors
`err.Error()` so that the string-matching classifiers of `pkg/errors`
can be embedded faithfully.
-/

deriving instance DecidableEq for Except

/-- Decimal digit character (`'0'` + d), for d < 10. -/
def digitChar (d : Nat) : Char := Char.ofNat (48 + d)

/-- Fuel-driven decimal rendering: pushes the digits of `n` in front of
`acc`.  `fuel` only has to exceed the number of digits. -/
def natCharsAux : Nat → Nat → List Char → List Char
  | 0, _, acc => acc
  | fuel + 1, n, acc =>
    if n < 10 then digitChar n :: acc
    else natCharsAux fuel (n / 10) (digitChar (n % 10) :: acc)

/-- Decimal rendering of a natural number, as Go's `fmt` verb `%d`
renders a nonnegative integer. -/
def natChars (n : Nat) : List Char := natCharsAux (n + 1) n []

/-- ASCII decimal digit test. -/
def isDigitChar (c : Char) : Bool := 48 ≤ c.toNat && c.toNat ≤ 57

/-- Go error values as produced by the code under verification: raw
errnos surfaced by the capability layer, the sentinel errors of
`pkg/errors`, plain message errors (`errors.New` / `fmt.Errorf` without
`%w`), and wrapping (`fmt.Errorf("<context>: %w", err)`). -/
inductive GoError where
  | enoent
  | eperm
  | eacces
  | errNotFound
  | errPermission
  | errKeyNotFound
  | errNoMoreKeys
  | errMapEmpty
  | msg (text : List Char)
  | wrap (context : List Char) (inner : GoError)
deriving DecidableEq

/-- `err.Error()`: the rendered message of a `GoError`. -/
def GoError.message : GoError → List Char
  | .enoent => "no such file or directory".toList
  | .eperm => "operation not permitted".toList
  | .eacces => "permission denied".toList
  | .errNotFound => "not found".toList
  | .errPermission => "permission denied: requires CAP_SYS_ADMIN or CAP_BPF".toList
  | .errKeyNotFound => "key not found in map".toList
  | .errNoMoreKeys => "no more keys".toList
  | .errMapEmpty => "map is empty".toList
  | .msg t => t
  | .wrap ctx inner => ctx ++ ": ".toList ++ inner.message

/-- `errors.Is`: equality after unwrapping any chain of `%w` wraps. -/
def errorIs : GoError → GoError → Bool
  | .wrap c inner, target =>
    (if GoError.wrap c inner = target then true else false) || errorIs inner target
  | e, target => if e = target then true else false

/-- `os.IsNotExist`: matches a bare ENOENT but does not unwrap `%w`
chains (it predates `errors.Is`). -/
def osIsNotExist : GoError → Bool
  | .enoent => true
  | _ => false

/-- `os.IsPermission`: matches a bare EPERM/EACCES, no unwrapping. -/
def osIsPermission : GoError → Bool
  | .eperm => true
  | .eacces => true
  | _ => false

/-- ASCII lowering of a character list (`strings.ToLower` on the ASCII
subset the tool's messages use). -/
def toLowerL (l : List Char) : List Char := l.map Char.toLower

/-- `pat` is a prefix of `hay` (character-wise). -/
def leadsWith : List Char → List Char → Bool
  | [], _ => true
  | _ :: _, [] => false
  | p :: ps, c :: cs => (p == c) && leadsWith ps cs

/-- `strings.Contains hay pat`. -/
def containsSub : List Char → List Char → Bool
  | [], pat => pat.isEmpty
  | c :: cs, pat => leadsWith pat (c :: cs) || containsSub cs pat

/-- `pkg/errors.IsPermissionError`. -/
def isPermissionError (e : GoError) : Bool :=
  errorIs e .errPermission ||
  (errorIs e .eperm || errorIs e .eacces) ||
  osIsPermission e ||
  (containsSub (toLowerL e.message) "permission denied".toList ||
   containsSub (toLowerL e.message) "operation not permitted".toList)

/-- `pkg/errors.IsNotFoundError`. -/
def isNotFoundError (e : GoError) : Bool :=
  (errorIs e .errNotFound || errorIs e .errKeyNotFound) ||
  errorIs e .enoent ||
  osIsNotExist e ||
  (containsSub (toLowerL e.message) "not found".toList ||
   containsSub (toLowerL e.message) "no such file or directory".toList)

/-- `pkg/errors.IsNoMoreKeysError`. -/
def isNoMoreKeysError (e : GoError) : Bool :=
  errorIs e .errNoMoreKeys ||
  errorIs e .enoent ||
  (containsSub (toLowerL e.message) "no more keys".toList ||
   containsSub (toLowerL e.message) "no such file or directory".toList)

/-! ## Program service (`pkg/prog/service_impl.go`) -/

/-- The raw metadata behind `(*ebpf.Program).Info()`: the fields the
extractor reads.  `id` and `loadTime` are `Option` because the kernel
reports them with an `ok` flag. -/
structure RawProgInfo where
  id : Option Nat
  progType : String
  name : String
  tag : String
  mapIDs : List Nat
  loadTime : Option Int
deriving DecidableEq

/-- `prog.ProgramInfo` (pkg/prog/service.go).  `loadedAt` is the wall
clock instant, `Int` nanoseconds. -/
structure ProgramInfo where
  id : Nat
  progType : String
  name : String
  tag : String
  gpl : Bool
  loadedAt : Int
  uid : Nat
  bytesXlated : Nat
  bytesJIT : Nat
  memLock : Nat
  mapIDs : List Nat
  pinnedPaths : List String
deriving DecidableEq

/-- Capability-primitive environment for the program engine: how the
kernel answers `ebpf.NewProgramFromID`, `ebpf.LoadPinnedProgram` and
`(*ebpf.Program).Info()`.  Open handles are file descriptors (`Nat`). -/
structure ProgEnv where
  newProgramFromID : Nat → Except GoError Nat
  loadPinnedProgram : String → Except GoError Nat
  progInfoOf : Nat → Except GoError RawProgInfo

/-- `extractProgramInfo` (service_impl.go:113-155) applied to the open
handle `fd` at wall-clock time `now`: queries `prog.Info()`, fails the
whole extraction when the ID is unresolvable, converts the
duration-since-boot `LoadTime` into `now - loadTime`, and fills the
placeholder fields (`GPL`, `UID`, `BytesXlated`, `BytesJIT`, `MemLock`)
with constants as the source does. -/
def extractProgramInfo (env : ProgEnv) (now : Int) (fd : Nat) :
    Except GoError ProgramInfo :=
  match env.progInfoOf fd with
  | .error e => .error (.wrap "failed to get program info".toList e)
  | .ok info =>
    match info.id with
    | none => .error (.msg "failed to get program ID".toList)
    | some pid =>
      .ok { id := pid
            progType := info.progType
            name := info.name
            tag := info.tag
            gpl := false
            loadedAt := match info.loadTime with
                        | some d => now - d
                        | none => 0
            uid := 0
            bytesXlated := 0
            bytesJIT := 0
            memLock := 0
            mapIDs := info.mapIDs
            pinnedPaths := [] }

/-- Loop body of `EBPFService.List` (service_impl.go:20-48).  `trace` is
the sequence of responses the kernel gives to the successive
`ebpf.ProgramGetNextID` calls; on ANY next-ID error — first call
included — the source `break`s and returns `(programs, nil)`; a failed
open or a failed extraction skips that ID (`continue`). -/
def progListLoop (env : ProgEnv) (now : Int) (acc : List ProgramInfo) :
    List (Except GoError Nat) → Except GoError (List ProgramInfo)
  | [] => .ok acc
  | .error _ :: _ => .ok acc
  | .ok id :: rest =>
    match env.newProgramFromID id with
    | .error _ => progListLoop env now acc rest
    | .ok fd =>
      match extractProgramInfo env now fd with
      | .error _ => progListLoop env now acc rest
      | .ok info => progListLoop env now (acc ++ [info]) rest

/-- `EBPFService.List`. -/
def progList (env : ProgEnv) (now : Int) (trace : List (Except GoError Nat)) :
    Except GoError (List ProgramInfo) :=
  progListLoop env now [] trace

/-- `EBPFService.GetByID` (service_impl.go:51-62). -/
def progGetByID (env : ProgEnv) (now : Int) (id : Nat) :
    Except GoError ProgramInfo :=
  match env.newProgramFromID id with
  | .error e =>
    if osIsNotExist e then
      .error (.msg ("program with ID ".toList ++ natChars id ++ " not found".toList))
    else
      .error (.wrap ("failed to get program ".toList ++ natChars id) e)
  | .ok fd => extractProgramInfo env now fd

/-- `EBPFService.GetByTag`: a full `List` followed by an exact tag
filter. -/
def progGetByTag (env : ProgEnv) (now : Int)
    (trace : List (Except GoError Nat)) (tag : String) :
    Except GoError (List ProgramInfo) :=
  match progList env now trace with
  | .error e => .error e
  | .ok all => .ok (all.filter fun p => p.tag = tag)

/-- `EBPFService.GetByName`: a full `List` followed by an exact name
filter. -/
def progGetByName (env : ProgEnv) (now : Int)
    (trace : List (Except GoError Nat)) (name : String) :
    Except GoError (List ProgramInfo) :=
  match progList env now trace with
  | .error e => .error e
  | .ok all => .ok (all.filter fun p => p.name = name)

/-- `EBPFService.GetByPinnedPath` (service_impl.go:99-110). -/
def progGetByPinnedPath (env : ProgEnv) (now : Int) (path : String) :
    Except GoError ProgramInfo :=
  match env.loadPinnedProgram path with
  | .error e =>
    if osIsNotExist e then
      .error (.msg (("no program pinned at " ++ path).toList))
    else
      .error (.wrap (("failed to load pinned program at " ++ path).toList) e)
  | .ok fd => extractProgramInfo env now fd

/-! ## Map service (`pkg/maps/service_impl.go`) -/

/-- The raw metadata behind `(*ebpf.Map).Info()`. -/
structure RawMapInfo where
  id : Option Nat
  typ : String
  name : String
  keySize : Nat
  valueSize : Nat
  maxEntries : Nat
  flags : Nat
deriving DecidableEq

/-- `maps.MapInfo` (pkg/maps/service.go). -/
structure MapInfo where
  id : Nat
  typ : String
  name : String
  keySize : Nat
  valueSize : Nat
  maxEntries : Nat
  flags : Nat
  memLock : Nat
  loadedAt : Int
  uid : Nat
deriving DecidableEq

/-- `maps.MapEntry`: one key/value pair of raw bytes. -/
structure MapEntry where
  key : List Nat
  value : List Nat
deriving DecidableEq

/-- Capability-primitive environment for the map engine.  `iterPrim fd`
is the observable behaviour of `m.Iterate()` on the handle: the pairs
the iterator yields (each step writing into the iterator's shared
buffers) followed by the terminal state of `iter.Err()`. -/
structure MapEnv where
  newMapFromID : Nat → Except GoError Nat
  loadPinnedMap : String → Except GoError Nat
  mapInfoOf : Nat → Except GoError RawMapInfo
  lookupPrim : Nat → List Nat → Except GoError (List Nat)
  nextKeyPrim : Nat → Option (List Nat) → Except GoError (List Nat)
  iterPrim : Nat → List (List Nat × List Nat) × Option GoError

/-- `strings.ToLower` on a `String` (ASCII subset). -/
def toLowerStr (s : String) : String := String.mk (toLowerL s.data)

/-- `serviceImpl.mapToMapInfo` (service_impl.go:194-217): queries
`m.Info()`, lowercases the type tag, takes the ID with the `ok` flag
ignored (`mapID, _ := info.ID()`, zero value on failure) and leaves
`MemLock`, `LoadedAt` and `UID` at their zero values. -/
def mapToMapInfo (env : MapEnv) (fd : Nat) : Except GoError MapInfo :=
  match env.mapInfoOf fd with
  | .error e => .error (.wrap "failed to get map info".toList e)
  | .ok info =>
    .ok { id := info.id.getD 0
          typ := toLowerStr info.typ
          name := info.name
          keySize := info.keySize
          valueSize := info.valueSize
          maxEntries := info.maxEntries
          flags := info.flags
          memLock := 0
          loadedAt := 0
          uid := 0 }

/-- Loop body of `serviceImpl.List` (service_impl.go:19-54).  Unlike the
program engine, the map engine tracks `firstIteration`: a next-ID error
on the FIRST call is propagated as `failed to list maps: <err>`, a later
one ends the loop successfully; open/extract failures skip the ID. -/
def mapsListLoop (env : MapEnv) (first : Bool) (acc : List MapInfo) :
    List (Except GoError Nat) → Except GoError (List MapInfo)
  | [] => .ok acc
  | .error e :: _ =>
    if first then .error (.wrap "failed to list maps".toList e) else .ok acc
  | .ok id :: rest =>
    match env.newMapFromID id with
    | .error _ => mapsListLoop env false acc rest
    | .ok fd =>
      match mapToMapInfo env fd with
      | .error _ => mapsListLoop env false acc rest
      | .ok mi => mapsListLoop env false (acc ++ [mi]) rest

/-- `serviceImpl.List`. -/
def mapsList (env : MapEnv) (trace : List (Except GoError Nat)) :
    Except GoError (List MapInfo) :=
  mapsListLoop env true [] trace

/-- `serviceImpl.GetByID` (service_impl.go:57-65): any open failure —
including ENOENT for an absent ID — is wrapped with `%w`, with no
dedicated not-found branch. -/
def mapsGetByID (env : MapEnv) (id : Nat) : Except GoError MapInfo :=
  match env.newMapFromID id with
  | .error e => .error (.wrap ("failed to get map by ID ".toList ++ natChars id) e)
  | .ok fd => mapToMapInfo env fd

/-- `serviceImpl.GetByName`: `List` then exact name filter. -/
def mapsGetByName (env : MapEnv) (trace : List (Except GoError Nat))
    (name : String) : Except GoError (List MapInfo) :=
  match mapsList env trace with
  | .error e => .error e
  | .ok all => .ok (all.filter fun m => m.name = name)

/-- `serviceImpl.GetByPinnedPath` (service_impl.go:85-93). -/
def mapsGetByPinnedPath (env : MapEnv) (path : String) :
    Except GoError MapInfo :=
  match env.loadPinnedMap path with
  | .error e =>
    .error (.wrap (("failed to load pinned map at " ++ path).toList) e)
  | .ok fd => mapToMapInfo env fd

/-- The dump loop's copy step: each pair the iterator yields is copied
out of the iterator's reused buffers into the result slice before the
next step overwrites them (service_impl.go:120-131). -/
def dumpEntries : List (List Nat × List Nat) → List MapEntry
  | [] => []
  | (k, v) :: rest => { key := k, value := v } :: dumpEntries rest

/-- `serviceImpl.Dump` (service_impl.go:96-138): open the map, read its
info for the key/value sizes, iterate copying every yielded pair, then
check `iter.Err()` — a non-nil terminal error makes the whole dump
return `(nil, err)`, discarding the collected entries. -/
def mapsDump (env : MapEnv) (id : Nat) : Except GoError (List MapEntry) :=
  match env.newMapFromID id with
  | .error e => .error (.wrap ("failed to get map by ID ".toList ++ natChars id) e)
  | .ok fd =>
    match env.mapInfoOf fd with
    | .error e => .error (.wrap "failed to get map info".toList e)
    | .ok _info =>
      match env.iterPrim fd with
      | (_pairs, some e) => .error (.wrap "failed to iterate map entries".toList e)
      | (pairs, none) => .ok (dumpEntries pairs)

/-- `serviceImpl.Lookup` (service_impl.go:141-164): open the map, read
its info (for the value-buffer size), then call `m.Lookup(key, &value)`
with the caller's key passed through unchanged — the function performs
no key-length validation of its own.  The second component records
whether the lookup primitive was invoked. -/
def mapsLookup (env : MapEnv) (id : Nat) (key : List Nat) :
    Except GoError (List Nat) × Bool :=
  match env.newMapFromID id with
  | .error e =>
    (.error (.wrap ("failed to get map by ID ".toList ++ natChars id) e), false)
  | .ok fd =>
    match env.mapInfoOf fd with
    | .error e => (.error (.wrap "failed to get map info".toList e), false)
    | .ok _info =>
      match env.lookupPrim fd key with
      | .error e => (.error (.wrap "failed to lookup key".toList e), true)
      | .ok v => (.ok v, true)

/-- `serviceImpl.GetNextKey` (service_impl.go:168-191): open the map,
read its info (for the key-buffer size), call `m.NextKey` and wrap any
failure generically — the empty/exhausted distinction is NOT made
here. -/
def mapsGetNextKey (env : MapEnv) (id : Nat) (key : Option (List Nat)) :
    Except GoError (List Nat) :=
  match env.newMapFromID id with
  | .error e => .error (.wrap ("failed to get map by ID ".toList ++ natChars id) e)
  | .ok fd =>
    match env.mapInfoOf fd with
    | .error e => .error (.wrap "failed to get map info".toList e)
    | .ok _info =>
      match env.nextKeyPrim fd key with
      | .error e => .error (.wrap "failed to get next key".toList e)
      | .ok k => .ok k

/-- The user-facing outcomes of `map getnext` (cmd/map.go:462-476). -/
inductive NextKeyOutcome where
  | nextKey (k : List Nat)
  | mapEmpty
  | noMoreKeys
  | otherError (e : GoError)
deriving DecidableEq

/-- The classification tail of `runMapGetNext` (cmd/map.go:462-476): a
no-more-keys error becomes *MapEmpty* when the caller supplied no key
(`keyData == nil`) and *NoMoreKeys* otherwise; any other error is passed
to the generic handler. -/
def classifyGetNext (keyData : Option (List Nat))
    (res : Except GoError (List Nat)) : NextKeyOutcome :=
  match res with
  | .ok k => .nextKey k
  | .error e =>
    if isNoMoreKeysError e then
      match keyData with
      | none => .mapEmpty
      | some _ => .noMoreKeys
    else .otherError e

/-- `runMapGetNext` after the map has been resolved to its ID: the
service call followed by the outcome classification. -/
def runMapGetNext (env : MapEnv) (id : Nat) (keyData : Option (List Nat)) :
    NextKeyOutcome :=
  classifyGetNext keyData (mapsGetNextKey env id keyData)

/-- Model of the kernel's `BPF_MAP_GET_NEXT_KEY` on a map whose live
contents, in kernel iteration order, are `entries`: the key following
`k`, or ENOENT when `k` is the last key (the external capability
primitive, not repository code). -/
def kernelNextAfter : List (List Nat × List Nat) → List Nat →
    Except GoError (List Nat)
  | [], _ => .error .enoent
  | (k0, _) :: rest, k =>
    if k0 = k then
      match rest with
      | [] => .error .enoent
      | (k1, _) :: _ => .ok k1
    else kernelNextAfter rest k

/-- Model of the kernel next-key primitive including the nil-key form:
with no cursor it yields the first key, or ENOENT on an empty map. -/
def kernelNextKey (entries : List (List Nat × List Nat)) :
    Option (List Nat) → Except GoError (List Nat)
  | none =>
    match entries with
    | [] => .error .enoent
    | (k0, _) :: _ => .ok k0
  | some k => kernelNextAfter entries k

/-! ## Pinned-path scanner (`pkg/bpffs`)

Go slices alias a backing array; to make the "defensive copy" claim
observable in a pure embedding, slice values are addresses into an
explicit heap of string lists.  `append([]string(nil), xs...)` is an
allocation of a fresh cell holding a copy of the contents. -/

/-- The heap of string-slice backing arrays; an address is an index. -/
structure Heap where
  cells : List (List String)
deriving DecidableEq

/-- Dereference an address (out-of-range reads as an empty slice). -/
def Heap.read (h : Heap) (a : Nat) : List String := h.cells.getD a []

/-- Allocate a fresh cell; returns the new heap and the fresh address. -/
def Heap.alloc (h : Heap) (v : List String) : Heap × Nat :=
  (⟨h.cells ++ [v]⟩, h.cells.length)

/-- Overwrite the cell at an address. -/
def Heap.write (h : Heap) (a : Nat) (v : List String) : Heap :=
  ⟨h.cells.set a v⟩

/-- `bpffs.Scanner`: the two ID-to-path tables (each path list stored by
address) and the has-scanned flag.  The mutex only serialises access and
has no sequential behaviour, so it is not modelled. -/
structure Scanner where
  progPaths : List (Nat × Nat)
  mapPaths : List (Nat × Nat)
  scanned : Bool
deriving DecidableEq

/-- `s.progPaths[id] = append(s.progPaths[id], path)`: grow the slice
for a present ID in place, or bind a fresh slice for a new ID. -/
def tabAppend (h : Heap) (tab : List (Nat × Nat)) (id : Nat) (path : String) :
    Heap × List (Nat × Nat) :=
  match List.lookup id tab with
  | some a => (h.write a (h.read a ++ [path]), tab)
  | none =>
    let p := h.alloc [path]
    (p.1, tab ++ [(id, p.2)])

/-- One entry of the `filepath.Walk` over the pin filesystem: the probe
results for a path (`ebpf.LoadPinnedProgram` first; only if that open
fails is `ebpf.LoadPinnedMap` tried; `progID`/`mapID` is the outcome of
`Info()`+`ID()` after a successful open). -/
structure WalkEntry where
  path : String
  isDir : Bool
  walkErr : Bool
  progOpens : Bool
  progID : Option Nat
  mapOpens : Bool
  mapID : Option Nat
deriving DecidableEq

/-- The pin filesystem as the scanner observes it: whether the root
directory exists, and the walk sequence when it does. -/
structure BpfFS where
  rootExists : Bool
  walk : List WalkEntry
deriving DecidableEq

/-- The walk callback of `Scanner.ensureScanned` (part_002:157-191):
skip inaccessible entries and directories; try the path as a program
first and append on success; only if the program open failed, try it as
a map; a file that opens as neither is skipped silently. -/
def scanStep (st : Heap × Scanner) (e : WalkEntry) : Heap × Scanner :=
  let h := st.1
  let s := st.2
  if e.walkErr then (h, s)
  else if e.isDir then (h, s)
  else if e.progOpens then
    match e.progID with
    | some pid =>
      let p := tabAppend h s.progPaths pid e.path
      (p.1, { s with progPaths := p.2 })
    | none => (h, s)
  else if e.mapOpens then
    match e.mapID with
    | some mid =>
      let p := tabAppend h s.mapPaths mid e.path
      (p.1, { s with mapPaths := p.2 })
    | none => (h, s)
  else (h, s)

/-- `Scanner.ensureScanned` (part_002:138-192): a no-op when already
scanned; otherwise clear both tables, mark scanned, yield empty tables
when the pin-filesystem root does not exist (not an error), and walk
the tree otherwise.  The function has no error result: every per-file
failure is swallowed. -/
def ensureScanned (h : Heap) (s : Scanner) (fs : BpfFS) : Heap × Scanner :=
  if s.scanned then (h, s)
  else
    let s1 : Scanner := { progPaths := [], mapPaths := [], scanned := true }
    if fs.rootExists then fs.walk.foldl scanStep (h, s1)
    else (h, s1)

/-- `Scanner.Refresh` (part_002:130-135): drop the scanned flag and
immediately rescan, rebuilding both tables from scratch. -/
def scannerRefresh (h : Heap) (s : Scanner) (fs : BpfFS) : Heap × Scanner :=
  ensureScanned h { s with scanned := false } fs

/-- `Scanner.GetProgramPinnedPaths` (part_002:114-119): ensure scanned,
then return `append([]string(nil), s.progPaths[id]...)` — a freshly
allocated copy of the stored list (empty for an unknown ID). -/
def getProgramPinnedPaths (h : Heap) (s : Scanner) (fs : BpfFS) (id : Nat) :
    Heap × Scanner × Nat :=
  let hs := ensureScanned h s fs
  let contents := match List.lookup id hs.2.progPaths with
                  | some a => hs.1.read a
                  | none => []
  let p := hs.1.alloc contents
  (p.1, hs.2, p.2)

/-- `Scanner.GetMapPinnedPaths` (part_002:122-127). -/
def getMapPinnedPaths (h : Heap) (s : Scanner) (fs : BpfFS) (id : Nat) :
    Heap × Scanner × Nat :=
  let hs := ensureScanned h s fs
  let contents := match List.lookup id hs.2.mapPaths with
                  | some a => hs.1.read a
                  | none => []
  let p := hs.1.alloc contents
  (p.1, hs.2, p.2)

/-! ## Hex utilities (`internal/utils/hex.go`) -/

/-- The ASCII whitespace characters `strings.Fields` splits on. -/
def isSpaceChar (c : Char) : Bool :=
  c == ' ' || c == '\t' || c == '\n' || c == '\x0b' || c == '\x0c' || c == '\r'

/-- `strings.Fields` worker: `cur` holds the word being read,
reversed. -/
def fieldsAux (cur : List Char) : List Char → List (List Char)
  | [] => if cur.isEmpty then [] else [cur.reverse]
  | c :: cs =>
    if isSpaceChar c then
      if cur.isEmpty then fieldsAux [] cs
      else cur.reverse :: fieldsAux [] cs
    else fieldsAux (c :: cur) cs

/-- `strings.Fields`: split around runs of whitespace, dropping empty
pieces. -/
def fields (s : List Char) : List (List Char) := fieldsAux [] s

/-- Value of one hex digit character (either case), if it is one. -/
def hexDigitVal (c : Char) : Option Nat :=
  if 48 ≤ c.toNat ∧ c.toNat ≤ 57 then some (c.toNat - 48)
  else if 97 ≤ c.toNat ∧ c.toNat ≤ 102 then some (c.toNat - 87)
  else if 65 ≤ c.toNat ∧ c.toNat ≤ 70 then some (c.toNat - 55)
  else none

/-- Digit-accumulation core of `strconv.ParseUint(part, 16, 8)`. -/
def parseHexAux (acc : Nat) : List Char → Option Nat
  | [] => some acc
  | c :: cs =>
    match hexDigitVal c with
    | none => none
    | some d => parseHexAux (acc * 16 + d) cs

/-- `strconv.ParseUint(part, 16, 8)`: rejects the empty string, any
non-hex character, and values beyond 8 bits. -/
def parseUint16Of8 : List Char → Option Nat
  | [] => none
  | c :: cs =>
    match parseHexAux 0 (c :: cs) with
    | none => none
    | some v => if v < 256 then some v else none

/-- One part of `ParseHexBytes`'s loop: parts longer than two characters
are rejected before parsing (hex.go:27-34). -/
def parseHexPart (p : List Char) : Option Nat :=
  if p.length > 2 then none else parseUint16Of8 p

/-- The parsing loop of `ParseHexBytes` (hex.go:25-37): parse each part
in order, aborting on the first bad part. -/
def parseParts : List (List Char) → Option (List Nat)
  | [] => some []
  | p :: ps =>
    match parseHexPart p with
    | none => none
    | some v =>
      match parseParts ps with
      | none => none
      | some vs => some (v :: vs)

/-- `utils.ParseHexBytes` (hex.go:13-40): the empty string parses to an
empty slice; otherwise split into whitespace-separated parts and parse
each as one hex byte. -/
def parseHexBytes (s : String) : Option (List Nat) :=
  if s = "" then some []
  else parseParts (fields s.data)

/-- Lowercase hex digit character of `d < 16`, as `%02x` renders it. -/
def hexDigitChar (d : Nat) : Char :=
  if d < 10 then Char.ofNat (48 + d) else Char.ofNat (87 + d)

/-- `fmt.Sprintf("%02x", b)` for one byte. -/
def byteHexChars (n : Nat) : List Char :=
  [hexDigitChar (n / 16), hexDigitChar (n % 16)]

/-- `strings.Join(parts, " ")`. -/
def joinSpace : List (List Char) → List Char
  | [] => []
  | [p] => p
  | p :: q :: ps => p ++ ' ' :: joinSpace (q :: ps)

/-- `utils.FormatHexBytes` (hex.go:44-55): empty input renders as the
empty string; otherwise each byte as two lowercase hex digits, joined
with single spaces. -/
def formatHexBytes (b : List Nat) : String :=
  if b.isEmpty then "" else String.mk (joinSpace (b.map byteHexChars))

/-! ## Concrete environments used by witnesses and counterexamples -/

/-- One live program (ID 1, opened as fd 10). -/
def rawP1 : RawProgInfo :=
  { id := some 1, progType := "xdp", name := "p1", tag := "f0055c08",
    mapIDs := [3, 4], loadTime := some 5 }

/-- A kernel with exactly one program, ID 1. -/
def cProgEnv : ProgEnv :=
  { newProgramFromID := fun id => if id = 1 then .ok 10 else .error .enoent
    loadPinnedProgram := fun _ => .error .enoent
    progInfoOf := fun fd => if fd = 10 then .ok rawP1 else .error .enoent }

/-- One live map (ID 2, opened as fd 20, 4-byte keys and values). -/
def rawM1 : RawMapInfo :=
  { id := some 2, typ := "Hash", name := "m1", keySize := 4, valueSize := 4,
    maxEntries := 16, flags := 0 }

/-- The contents of map 2, in kernel iteration order. -/
def cEntries : List (List Nat × List Nat) := [([0, 1, 2, 3], [9, 9, 9, 9])]

/-- A kernel with exactly one map, ID 2, holding `cEntries`. -/
def cMapEnv : MapEnv :=
  { newMapFromID := fun id => if id = 2 then .ok 20 else .error .enoent
    loadPinnedMap := fun _ => .error .enoent
    mapInfoOf := fun fd => if fd = 20 then .ok rawM1 else .error .enoent
    lookupPrim := fun _ k =>
      if k = [0, 1, 2, 3] then .ok [9, 9, 9, 9]
      else .error (.msg "invalid argument".toList)
    nextKeyPrim := fun _ q => kernelNextKey cEntries q
    iterPrim := fun _ => (cEntries, none) }

/-- Like `cMapEnv` but map 2 is empty. -/
def cMapEnvEmpty : MapEnv :=
  { newMapFromID := fun id => if id = 2 then .ok 20 else .error .enoent
    loadPinnedMap := fun _ => .error .enoent
    mapInfoOf := fun fd => if fd = 20 then .ok rawM1 else .error .enoent
    lookupPrim := fun _ _ => .error .enoent
    nextKeyPrim := fun _ q => kernelNextKey [] q
    iterPrim := fun _ => ([], none) }

/-! ## General helper lemmas -/

/-- The program list loop can only ever return `ok`: every next-ID
error, first call included, hits the `break`. -/
theorem progListLoop_ok (env : ProgEnv) (now : Int) :
    ∀ (trace : List (Except GoError Nat)) (acc : List ProgramInfo),
      ∃ l, progListLoop env now acc trace = .ok l := by
  intro trace
  induction trace with
  | nil => exact fun acc => ⟨acc, rfl⟩
  | cons hd rest ih =>
    intro acc
    match hd with
    | .error e => exact ⟨acc, rfl⟩
    | .ok id =>
      simp only [progListLoop]
      split
      · exact ih acc
      split
      · exact ih acc
      · exact ih _

/-- The dump loop's copy step yields exactly the pairs the iterator
yielded, in order. -/
theorem dumpEntries_eq_map (l : List (List Nat × List Nat)) :
    dumpEntries l = l.map fun p => { key := p.1, value := p.2 } := by
  induction l with
  | nil => rfl
  | cons hd tl ih => cases hd; simp [dumpEntries, ih]

/-! ## C1 — first-call versus later-call next-ID failures in List -/

/-- C1 counterexample: with a kernel whose very first
`ProgramGetNextID` call reports permission-denied, the program engine's
`List` returns `([], nil)` — an empty success, not the propagated
failure the claim requires. -/
theorem progList_swallows_first_eperm :
    progList cProgEnv 0 [Except.error GoError.eperm] = Except.ok [] := rfl

/-- C1 (amended): the map engine propagates a first-call next-ID
failure (wrapped as `failed to list maps`) and turns any later next-ID
failure into a successful return of the records collected so far; the
program engine never returns an error at all — every next-ID failure,
including one on the very first call, ends the walk successfully; and
both engines silently skip a discovered ID whose open fails. -/
theorem list_first_call_policy :
    (∀ (env : MapEnv) (e : GoError) (rest : List (Except GoError Nat)),
      mapsList env (.error e :: rest) =
        .error (.wrap "failed to list maps".toList e)) ∧
    (∀ (env : MapEnv) (acc : List MapInfo) (e : GoError)
        (rest : List (Except GoError Nat)),
      mapsListLoop env false acc (.error e :: rest) = .ok acc) ∧
    (∀ (env : ProgEnv) (now : Int) (trace : List (Except GoError Nat)),
      ∃ l, progList env now trace = .ok l) ∧
    (∀ (env : ProgEnv) (now : Int) (acc : List ProgramInfo) (id : Nat)
        (e : GoError) (rest : List (Except GoError Nat)),
      env.newProgramFromID id = .error e →
      progListLoop env now acc (.ok id :: rest) = progListLoop env now acc rest) ∧
    (∀ (env : MapEnv) (first : Bool) (acc : List MapInfo) (id : Nat)
        (e : GoError) (rest : List (Except GoError Nat)),
      env.newMapFromID id = .error e →
      mapsListLoop env first acc (.ok id :: rest) = mapsListLoop env false acc rest) := by
  refine ⟨fun env e rest => rfl, fun env acc e rest => rfl,
    fun env now trace => progListLoop_ok env now trace [],
    fun env now acc id e rest h => ?_, fun env first acc id e rest h => ?_⟩
  · simp only [progListLoop, h]
  · simp only [mapsListLoop, h]

/-- C1 witness: the amended policy evaluated on concrete kernels. -/
theorem list_first_call_policy_witness :
    mapsList cMapEnv [Except.error GoError.eperm] =
      Except.error (GoError.wrap "failed to list maps".toList GoError.eperm) ∧
    progListLoop cProgEnv 0 [] [Except.ok 99] = progListLoop cProgEnv 0 [] [] ∧
    mapsListLoop cMapEnv true [] [Except.ok 99] = mapsListLoop cMapEnv false [] [] :=
  ⟨list_first_call_policy.1 cMapEnv GoError.eperm [],
   list_first_call_policy.2.2.2.1 cProgEnv 0 [] 99 GoError.enoent [] (by decide),
   list_first_call_policy.2.2.2.2 cMapEnv true [] 99 GoError.enoent [] (by decide)⟩

/-! ## C2 — key length is not validated before the lookup call -/

/-- C2 counterexample: on a map with 4-byte keys, `Lookup` with a
1-byte key still invokes the kernel lookup primitive — no invalid-input
error is produced beforehand. -/
theorem mapsLookup_no_length_precheck :
    ([(0 : Nat)].length ≠ rawM1.keySize) ∧
    (mapsLookup cMapEnv 2 [0]).2 = true := by decide

/-- C2 (amended): `Lookup` performs no key-length validation: whenever
the map opens and its info is readable, the caller's key — whatever its
length — is passed unchanged to the kernel lookup primitive, and the
primitive's verdict (wrapped as `failed to lookup key` on failure) is
the result. -/
theorem mapsLookup_forwards_key_unvalidated
    (env : MapEnv) (id : Nat) (key : List Nat) (fd : Nat) (info : RawMapInfo)
    (hopen : env.newMapFromID id = .ok fd)
    (hinfo : env.mapInfoOf fd = .ok info) :
    (mapsLookup env id key).2 = true ∧
    (mapsLookup env id key).1 =
      (match env.lookupPrim fd key with
       | .ok v => .ok v
       | .error e => .error (.wrap "failed to lookup key".toList e)) := by
  simp only [mapsLookup, hopen, hinfo]
  cases env.lookupPrim fd key with
  | error e => exact ⟨rfl, rfl⟩
  | ok v => exact ⟨rfl, rfl⟩

/-- C2 witness: the amended statement on the concrete kernel, with a
key of the wrong length. -/
theorem mapsLookup_forwards_key_witness :
    (mapsLookup cMapEnv 2 [0]).2 = true ∧
    (mapsLookup cMapEnv 2 [0]).1 =
      Except.error (GoError.wrap "failed to lookup key".toList
        (GoError.msg "invalid argument".toList)) :=
  mapsLookup_forwards_key_unvalidated cMapEnv 2 [0] 20 rawM1 (by decide) (by decide)

/-! ## C4 — dump is all-or-nothing and copies every yielded pair -/

/-- C4: once the map is open and its info read, a dump whose iteration
ends in a non-nil `iter.Err()` returns exactly that error and no
entries — the partially collected pairs are discarded — while an
iteration that ends cleanly returns every yielded pair, each copied out
of the iterator's reused buffers in yield order. -/
theorem mapsDump_all_or_nothing
    (env : MapEnv) (id : Nat) (fd : Nat) (info : RawMapInfo)
    (hopen : env.newMapFromID id = .ok fd)
    (hinfo : env.mapInfoOf fd = .ok info) :
    (∀ pairs e, env.iterPrim fd = (pairs, some e) →
      mapsDump env id = .error (.wrap "failed to iterate map entries".toList e)) ∧
    (∀ pairs, env.iterPrim fd = (pairs, none) →
      mapsDump env id = .ok (pairs.map fun p => { key := p.1, value := p.2 })) := by
  constructor
  · intro pairs e hiter
    simp only [mapsDump, hopen, hinfo, hiter]
  · intro pairs hiter
    simp only [mapsDump, hopen, hinfo, hiter, dumpEntries_eq_map]

/-- C4 witness: a clean dump of the concrete one-entry map. -/
theorem mapsDump_all_or_nothing_witness :
    mapsDump cMapEnv 2 =
      Except.ok [{ key := [0, 1, 2, 3], value := [9, 9, 9, 9] }] :=
  (mapsDump_all_or_nothing cMapEnv 2 20 rawM1 (by decide) (by decide)).2
    cEntries (by decide)

/-! ## C8 — a missing pin-filesystem root yields empty tables, no error -/

/-- C8: when the pin-filesystem root does not exist, an actual scan
(`ensureScanned` from the unscanned state, and the scan `Refresh`
forces regardless of prior state) leaves both ID-to-path tables empty
with the scanned flag set, discarding any previously cached entries;
the operation has no error result at all. -/
theorem scan_missing_root_yields_empty (h : Heap) (s : Scanner) (fs : BpfFS)
    (hroot : fs.rootExists = false) :
    (s.scanned = false →
      (ensureScanned h s fs).2 =
        { progPaths := [], mapPaths := [], scanned := true }) ∧
    (scannerRefresh h s fs).2 =
      { progPaths := [], mapPaths := [], scanned := true } := by
  constructor
  · intro hscan
    simp [ensureScanned, hscan, hroot]
  · simp [scannerRefresh, ensureScanned, hroot]

/-- C8 witness: a previously populated scanner re-scanned against a
missing root comes back empty. -/
theorem scan_missing_root_witness :
    (scannerRefresh ⟨[["/sys/fs/bpf/p"]]⟩
        { progPaths := [(1, 0)], mapPaths := [], scanned := true }
        { rootExists := false, walk := [] }).2 =
      { progPaths := [], mapPaths := [], scanned := true } :=
  (scan_missing_root_yields_empty ⟨[["/sys/fs/bpf/p"]]⟩
    { progPaths := [(1, 0)], mapPaths := [], scanned := true }
    { rootExists := false, walk := [] } rfl).2

/-! ## C3 — MapEmpty versus NoMoreKeys in getnext -/

/-- Any wrap of ENOENT is recognised by `IsNoMoreKeysError` through its
`errors.Is(err, syscall.ENOENT)` branch. -/
theorem isNoMoreKeysError_wrap_enoent (ctx : List Char) :
    isNoMoreKeysError (.wrap ctx .enoent) = true := by
  simp [isNoMoreKeysError, errorIs]

/-- A list whose `getLast?` is `some k` contains `k`. -/
theorem getLastQ_mem {α : Type} : ∀ (l : List α) (k : α),
    l.getLast? = some k → k ∈ l := by
  intro l
  induction l with
  | nil => intro k h; simp at h
  | cons hd tl ih =>
    intro k h
    cases tl with
    | nil =>
      simp at h
      simp [h]
    | cons hd2 tl2 =>
      rw [List.getLast?_cons_cons] at h
      exact List.mem_cons_of_mem hd (ih k h)

/-- In the kernel model, asking for the key after the last key of the
iteration order reports end-of-sequence (ENOENT). -/
theorem kernelNextAfter_last :
    ∀ (entries : List (List Nat × List Nat)) (k : List Nat),
      (entries.map Prod.fst).getLast? = some k →
      (entries.map Prod.fst).Nodup →
      kernelNextAfter entries k = .error .enoent := by
  intro entries
  induction entries with
  | nil => intro k hlast _; simp at hlast
  | cons hd tl ih =>
    intro k hlast hnd
    obtain ⟨k0, v0⟩ := hd
    rw [List.map_cons] at hlast hnd
    have hnd2 := (List.nodup_cons.mp hnd).2
    have hnotmem := (List.nodup_cons.mp hnd).1
    cases tl with
    | nil =>
      simp at hlast
      subst hlast
      simp [kernelNextAfter]
    | cons hd2 tl2 =>
      have hmapne : (hd2 :: tl2).map Prod.fst ≠ [] := by simp
      obtain ⟨k1, restk, hrest⟩ : ∃ k1 restk,
          (hd2 :: tl2).map Prod.fst = k1 :: restk := ⟨hd2.1, tl2.map Prod.fst, by simp⟩
      rw [hrest] at hlast hnd2 hnotmem
      rw [List.getLast?_cons_cons] at hlast
      have hkmem : k ∈ k1 :: restk := getLastQ_mem _ k hlast
      have hne : k0 ≠ k := fun he => hnotmem (he ▸ hkmem)
      have IH := ih k (by rw [hrest]; exact hlast) (by rw [hrest]; exact hnd2)
      simp only [kernelNextAfter, if_neg hne]
      exact IH

/-- C3: once the map is open, with the next-key primitive behaving as
the kernel does on contents `entries`, `map getnext` reports *MapEmpty*
when no key was supplied and the map is empty, and *NoMoreKeys* — never
*MapEmpty* — when the supplied key is the last key in iteration
order. -/
theorem getNext_distinguishes_empty_and_exhausted
    (env : MapEnv) (id fd : Nat) (info : RawMapInfo)
    (entries : List (List Nat × List Nat)) (k : List Nat)
    (hopen : env.newMapFromID id = .ok fd)
    (hinfo : env.mapInfoOf fd = .ok info)
    (hprim : env.nextKeyPrim fd = kernelNextKey entries) :
    (entries = [] → runMapGetNext env id none = .mapEmpty) ∧
    ((entries.map Prod.fst).getLast? = some k →
     (entries.map Prod.fst).Nodup →
     runMapGetNext env id (some k) = .noMoreKeys) := by
  constructor
  · intro hemp
    subst hemp
    simp only [runMapGetNext, mapsGetNextKey, hopen, hinfo, hprim]
    decide
  · intro hlast hnd
    have hend : kernelNextKey entries (some k) = .error .enoent :=
      kernelNextAfter_last entries k hlast hnd
    simp only [runMapGetNext, mapsGetNextKey, hopen, hinfo, hprim, hend]
    simp [classifyGetNext, isNoMoreKeysError_wrap_enoent]

/-- C3 witness: the concrete empty map reports *MapEmpty* with no key
supplied; the concrete one-entry map reports *NoMoreKeys* after its
last key. -/
theorem getNext_empty_exhausted_witness :
    runMapGetNext cMapEnvEmpty 2 none = .mapEmpty ∧
    runMapGetNext cMapEnv 2 (some [0, 1, 2, 3]) = .noMoreKeys :=
  ⟨(getNext_distinguishes_empty_and_exhausted cMapEnvEmpty 2 20 rawM1 [] []
      (by decide) (by decide) rfl).1 rfl,
   (getNext_distinguishes_empty_and_exhausted cMapEnv 2 20 rawM1 cEntries
      [0, 1, 2, 3] (by decide) (by decide) rfl).2 (by decide) (by decide)⟩

/-! ## C9 — placeholder metadata fields are constants -/

/-- The five program metadata fields the extractor hard-codes. -/
def progPlaceholders (r : ProgramInfo) : Prop :=
  r.gpl = false ∧ r.uid = 0 ∧ r.bytesXlated = 0 ∧ r.bytesJIT = 0 ∧ r.memLock = 0

/-- Every successful extraction carries the hard-coded placeholder
values. -/
theorem extract_placeholder_fields (env : ProgEnv) (now : Int) (fd : Nat)
    (r : ProgramInfo) (h : extractProgramInfo env now fd = .ok r) :
    progPlaceholders r := by
  unfold extractProgramInfo at h
  split at h
  · simp at h
  · split at h
    · simp at h
    · injection h with h2
      subst h2
      exact ⟨rfl, rfl, rfl, rfl, rfl⟩

/-- Every successful map-info conversion leaves `MemLock` at zero. -/
theorem mapToMapInfo_memLock (env : MapEnv) (fd : Nat) (m : MapInfo)
    (h : mapToMapInfo env fd = .ok m) : m.memLock = 0 := by
  unfold mapToMapInfo at h
  split at h
  · simp at h
  · injection h with h2
    subst h2
    rfl

/-- Inversion for the program list loop: every record of the result is
either carried in from the accumulator or was produced by opening a
discovered ID and extracting it. -/
theorem progListLoop_mem (env : ProgEnv) (now : Int) :
    ∀ (trace : List (Except GoError Nat)) (acc l : List ProgramInfo)
      (r : ProgramInfo),
      progListLoop env now acc trace = .ok l → r ∈ l →
      r ∈ acc ∨ ∃ id fd, env.newProgramFromID id = .ok fd ∧
        extractProgramInfo env now fd = .ok r := by
  intro trace
  induction trace with
  | nil =>
    intro acc l r h hm
    simp only [progListLoop] at h
    injection h with h2
    subst h2
    exact Or.inl hm
  | cons hd rest ih =>
    intro acc l r h hm
    match hd with
    | .error e =>
      simp only [progListLoop] at h
      injection h with h2
      subst h2
      exact Or.inl hm
    | .ok id =>
      simp only [progListLoop] at h
      split at h
      · exact ih acc l r h hm
      next fd heq =>
        split at h
        · exact ih acc l r h hm
        next info heq2 =>
          rcases ih (acc ++ [info]) l r h hm with h1 | h2
          · rcases List.mem_append.mp h1 with ha | hb
            · exact Or.inl ha
            · have hri : r = info := by simpa using hb
              subst hri
              exact Or.inr ⟨id, fd, heq, heq2⟩
          · exact Or.inr h2

/-- Inversion for the map list loop, analogously. -/
theorem mapsListLoop_mem (env : MapEnv) :
    ∀ (trace : List (Except GoError Nat)) (first : Bool) (acc l : List MapInfo)
      (m : MapInfo),
      mapsListLoop env first acc trace = .ok l → m ∈ l →
      m ∈ acc ∨ ∃ id fd, env.newMapFromID id = .ok fd ∧
        mapToMapInfo env fd = .ok m := by
  intro trace
  induction trace with
  | nil =>
    intro first acc l m h hm
    simp only [mapsListLoop] at h
    injection h with h2
    subst h2
    exact Or.inl hm
  | cons hd rest ih =>
    intro first acc l m h hm
    match hd with
    | .error e =>
      simp only [mapsListLoop] at h
      by_cases hf : first = true
      · rw [if_pos hf] at h
        simp at h
      · rw [if_neg hf] at h
        injection h with h2
        subst h2
        exact Or.inl hm
    | .ok id =>
      simp only [mapsListLoop] at h
      split at h
      · exact ih false acc l m h hm
      next fd heq =>
        split at h
        · exact ih false acc l m h hm
        next mi heq2 =>
          rcases ih false (acc ++ [mi]) l m h hm with h1 | h2
          · rcases List.mem_append.mp h1 with ha | hb
            · exact Or.inl ha
            · have hmi : m = mi := by simpa using hb
              subst hmi
              exact Or.inr ⟨id, fd, heq, heq2⟩
          · exact Or.inr h2

/-- The program record of the concrete kernel as extracted at time
`now` (only `loadedAt` depends on the clock). -/
def cRecAt (now : Int) : ProgramInfo :=
  { id := 1, progType := "xdp", name := "p1", tag := "f0055c08",
    gpl := false, loadedAt := now - 5, uid := 0, bytesXlated := 0,
    bytesJIT := 0, memLock := 0, mapIDs := [3, 4], pinnedPaths := [] }

/-- The map record of the concrete kernel. -/
def cMapRec : MapInfo :=
  { id := 2, typ := "hash", name := "m1", keySize := 4, valueSize := 4,
    maxEntries := 16, flags := 0, memLock := 0, loadedAt := 0, uid := 0 }

/-- C9: every record any program-engine operation returns carries the
constant placeholder values GPL = false, UID = 0, BytesXlated = 0,
BytesJIT = 0, MemLock = 0, and every record any map-engine operation
returns carries MemLock = 0 — regardless of the kernel's answers. -/
theorem placeholder_metadata_fields :
    (∀ (env : ProgEnv) (now : Int) (trace : List (Except GoError Nat)) l r,
      progList env now trace = .ok l → r ∈ l → progPlaceholders r) ∧
    (∀ (env : ProgEnv) (now : Int) (id : Nat) r,
      progGetByID env now id = .ok r → progPlaceholders r) ∧
    (∀ (env : ProgEnv) (now : Int) (trace : List (Except GoError Nat))
        (tg : String) l r,
      progGetByTag env now trace tg = .ok l → r ∈ l → progPlaceholders r) ∧
    (∀ (env : ProgEnv) (now : Int) (trace : List (Except GoError Nat))
        (nm : String) l r,
      progGetByName env now trace nm = .ok l → r ∈ l → progPlaceholders r) ∧
    (∀ (env : ProgEnv) (now : Int) (path : String) r,
      progGetByPinnedPath env now path = .ok r → progPlaceholders r) ∧
    (∀ (env : MapEnv) (trace : List (Except GoError Nat)) l m,
      mapsList env trace = .ok l → m ∈ l → m.memLock = 0) ∧
    (∀ (env : MapEnv) (id : Nat) m,
      mapsGetByID env id = .ok m → m.memLock = 0) ∧
    (∀ (env : MapEnv) (trace : List (Except GoError Nat)) (nm : String) l m,
      mapsGetByName env trace nm = .ok l → m ∈ l → m.memLock = 0) ∧
    (∀ (env : MapEnv) (path : String) m,
      mapsGetByPinnedPath env path = .ok m → m.memLock = 0) := by
  have hlist : ∀ (env : ProgEnv) (now : Int) trace l r,
      progList env now trace = .ok l → r ∈ l → progPlaceholders r := by
    intro env now trace l r h hm
    rcases progListLoop_mem env now trace [] l r h hm with h1 | ⟨id, fd, _, hex⟩
    · simp at h1
    · exact extract_placeholder_fields env now fd r hex
  have hmlist : ∀ (env : MapEnv) trace l m,
      mapsList env trace = .ok l → m ∈ l → m.memLock = 0 := by
    intro env trace l m h hm
    rcases mapsListLoop_mem env trace true [] l m h hm with h1 | ⟨id, fd, _, hex⟩
    · simp at h1
    · exact mapToMapInfo_memLock env fd m hex
  refine ⟨hlist, ?_, ?_, ?_, ?_, hmlist, ?_, ?_, ?_⟩
  · intro env now id r h
    unfold progGetByID at h
    split at h
    · split at h <;> simp at h
    · exact extract_placeholder_fields env now _ r h
  · intro env now trace tg l r h hm
    unfold progGetByTag at h
    split at h
    · simp at h
    next all heq =>
      injection h with h2
      subst h2
      exact hlist env now trace all r heq (List.mem_of_mem_filter hm)
  · intro env now trace nm l r h hm
    unfold progGetByName at h
    split at h
    · simp at h
    next all heq =>
      injection h with h2
      subst h2
      exact hlist env now trace all r heq (List.mem_of_mem_filter hm)
  · intro env now path r h
    unfold progGetByPinnedPath at h
    split at h
    · split at h <;> simp at h
    · exact extract_placeholder_fields env now _ r h
  · intro env id m h
    unfold mapsGetByID at h
    split at h
    · simp at h
    · exact mapToMapInfo_memLock env _ m h
  · intro env trace nm l m h hm
    unfold mapsGetByName at h
    split at h
    · simp at h
    next all heq =>
      injection h with h2
      subst h2
      exact hmlist env trace all m heq (List.mem_of_mem_filter hm)
  · intro env path m h
    unfold mapsGetByPinnedPath at h
    split at h
    · simp at h
    · exact mapToMapInfo_memLock env _ m h

/-- C9 witness: the concrete records carry the placeholder values. -/
theorem placeholder_metadata_witness :
    progPlaceholders (cRecAt 0) ∧ cMapRec.memLock = 0 :=
  ⟨placeholder_metadata_fields.2.1 cProgEnv 0 1 (cRecAt 0) (by decide),
   placeholder_metadata_fields.2.2.2.2.2.2.1 cMapEnv 2 cMapRec (by decide)⟩

/-! ## C6 — List records versus an immediate GetByID -/

/-- A kernel is coherent when the metadata read through a handle opened
for an ID reports that same ID ("no intervening kernel mutation"). -/
def progEnvCoherent (env : ProgEnv) : Prop :=
  ∀ id fd raw, env.newProgramFromID id = .ok fd →
    env.progInfoOf fd = .ok raw → raw.id = some id

/-- Coherence of a map kernel, analogously. -/
def mapEnvCoherent (env : MapEnv) : Prop :=
  ∀ id fd raw, env.newMapFromID id = .ok fd →
    env.mapInfoOf fd = .ok raw → raw.id = some id

/-- Forget the wall-clock-dependent `loadedAt` field. -/
def eraseLoadedAt (r : ProgramInfo) : ProgramInfo := { r with loadedAt := 0 }

/-- Inversion of a successful program extraction: the raw info it came
from and the exact record shape, clock included. -/
theorem extract_inv (env : ProgEnv) (now : Int) (fd : Nat) (r : ProgramInfo)
    (h : extractProgramInfo env now fd = .ok r) :
    ∃ raw pid, env.progInfoOf fd = .ok raw ∧ raw.id = some pid ∧
      r = { id := pid, progType := raw.progType, name := raw.name,
            tag := raw.tag, gpl := false,
            loadedAt := match raw.loadTime with
                        | some d => now - d
                        | none => 0,
            uid := 0, bytesXlated := 0, bytesJIT := 0, memLock := 0,
            mapIDs := raw.mapIDs, pinnedPaths := [] } := by
  unfold extractProgramInfo at h
  split at h
  · simp at h
  next raw heq =>
    split at h
    · simp at h
    next pid heq2 =>
      injection h with h2
      exact ⟨raw, pid, heq, heq2, h2.symm⟩

/-- Inversion of a successful map-info conversion. -/
theorem mapToMapInfo_inv (env : MapEnv) (fd : Nat) (m : MapInfo)
    (h : mapToMapInfo env fd = .ok m) :
    ∃ raw, env.mapInfoOf fd = .ok raw ∧
      m = { id := raw.id.getD 0, typ := toLowerStr raw.typ, name := raw.name,
            keySize := raw.keySize, valueSize := raw.valueSize,
            maxEntries := raw.maxEntries, flags := raw.flags,
            memLock := 0, loadedAt := 0, uid := 0 } := by
  unfold mapToMapInfo at h
  split at h
  · simp at h
  next raw heq =>
    injection h with h2
    exact ⟨raw, heq, h2.symm⟩

/-- C6 (amended): against an unmutated, coherent kernel, `GetByID` on
the ID of any record `List` returned reproduces that record exactly —
except that a program record's `LoadedAt`, recomputed from the wall
clock sampled at extraction time, generally differs; the two records
agree on every other field.  Map records, whose conversion reads no
clock, are reproduced identically. -/
theorem list_getByID_agree_up_to_clock :
    (∀ (env : ProgEnv), progEnvCoherent env →
      ∀ (now1 now2 : Int) (trace : List (Except GoError Nat))
        (l : List ProgramInfo) (r : ProgramInfo),
        progList env now1 trace = .ok l → r ∈ l →
        ∃ r2, progGetByID env now2 r.id = .ok r2 ∧
          eraseLoadedAt r2 = eraseLoadedAt r) ∧
    (∀ (env : MapEnv), mapEnvCoherent env →
      ∀ (trace : List (Except GoError Nat)) (l : List MapInfo) (m : MapInfo),
        mapsList env trace = .ok l → m ∈ l →
        mapsGetByID env m.id = .ok m) := by
  constructor
  · intro env hco now1 now2 trace l r h hm
    rcases progListLoop_mem env now1 trace [] l r h hm with h1 | ⟨id, fd, hopen, hex⟩
    · simp at h1
    · rcases extract_inv env now1 fd r hex with ⟨raw, pid, hinfo, hid, hr⟩
      have h3 := hco id fd raw hopen hinfo
      have hpid : pid = id := by
        have h4 : some pid = some id := hid.symm.trans h3
        injection h4
      subst hr
      subst hpid
      refine ⟨{ id := pid, progType := raw.progType, name := raw.name,
                tag := raw.tag, gpl := false,
                loadedAt := match raw.loadTime with
                            | some d => now2 - d
                            | none => 0,
                uid := 0, bytesXlated := 0, bytesJIT := 0, memLock := 0,
                mapIDs := raw.mapIDs, pinnedPaths := [] }, ?_, ?_⟩
      · show progGetByID env now2 pid = _
        simp only [progGetByID, hopen, extractProgramInfo, hinfo, h3]
      · simp [eraseLoadedAt]
  · intro env hco trace l m h hm
    rcases mapsListLoop_mem env trace true [] l m h hm with h1 | ⟨id, fd, hopen, hex⟩
    · simp at h1
    · rcases mapToMapInfo_inv env fd m hex with ⟨raw, hinfo, hmval⟩
      have h3 := hco id fd raw hopen hinfo
      have hmid : m.id = id := by rw [hmval]; simp [h3]
      rw [hmid]
      simp only [mapsGetByID, hopen]
      exact hex

/-- C6 counterexample: on the concrete kernel, the record `List`
returns at clock 0 and the record `GetByID` returns one clock tick
later differ — their `LoadedAt` fields disagree — so the two records
are not identical even with no kernel mutation in between. -/
theorem listed_record_drifts_under_clock :
    progList cProgEnv 0 [Except.ok 1, Except.error GoError.enoent] =
      Except.ok [cRecAt 0] ∧
    progGetByID cProgEnv 1 1 = Except.ok (cRecAt 1) ∧
    cRecAt 1 ≠ cRecAt 0 := by decide

/-- C6 witness: the amended agreement evaluated on the concrete
kernels. -/
theorem list_getByID_agree_witness :
    eraseLoadedAt (cRecAt 7) = eraseLoadedAt (cRecAt 0) ∧
    mapsGetByID cMapEnv 2 = Except.ok cMapRec := by
  constructor
  · obtain ⟨r2, h1, h2⟩ := list_getByID_agree_up_to_clock.1 cProgEnv
      (by intro id fd raw ho hi
          by_cases hid : id = 1
          · subst hid
            have hfd : 10 = fd := by simpa [cProgEnv] using ho
            subst hfd
            have hraw : rawP1 = raw := by simpa [cProgEnv] using hi
            subst hraw
            rfl
          · simp [cProgEnv, hid] at ho)
      0 7 [Except.ok 1, Except.error GoError.enoent] [cRecAt 0] (cRecAt 0)
      (by decide) (by decide)
    have hc : progGetByID cProgEnv 7 (cRecAt 0).id = Except.ok (cRecAt 7) := by
      decide
    rw [h1] at hc
    injection hc with h3
    rw [h3] at h2
    exact h2
  · exact list_getByID_agree_up_to_clock.2 cMapEnv
      (by intro id fd raw ho hi
          by_cases hid : id = 2
          · subst hid
            have hfd : 20 = fd := by simpa [cMapEnv] using ho
            subst hfd
            have hraw : rawM1 = raw := by simpa [cMapEnv] using hi
            subst hraw
            rfl
          · simp [cMapEnv, hid] at ho)
      [Except.ok 2, Except.error GoError.enoent] [cMapRec] cMapRec
      (by decide) (by decide)

/-! ## C7 — pinned-path lists are defensive copies -/

/-- `getD` over an append reads the left part below its length. -/
theorem getDAppendLt {α : Type} :
    ∀ (l l2 : List α) (a : Nat) (d : α), a < l.length →
      (l ++ l2).getD a d = l.getD a d := by
  intro l
  induction l with
  | nil => intro l2 a d h; simp at h
  | cons x rest ih =>
    intro l2 a d h
    cases a with
    | zero => simp [List.getD_cons_zero]
    | succ a2 =>
      simp only [List.cons_append, List.getD_cons_succ]
      exact ih l2 a2 d (by simpa using h)

/-- `getD` at the length of the left part of a one-element append. -/
theorem getDConcatLen {α : Type} :
    ∀ (l : List α) (x d : α), (l ++ [x]).getD l.length d = x := by
  intro l
  induction l with
  | nil => intro x d; simp [List.getD_cons_zero]
  | cons y rest ih =>
    intro x d
    simp only [List.cons_append, List.length_cons, List.getD_cons_succ]
    exact ih x d

/-- Setting the appended slot rewrites only it. -/
theorem setConcatLen {α : Type} :
    ∀ (l : List α) (x v : α), (l ++ [x]).set l.length v = l ++ [v] := by
  intro l
  induction l with
  | nil => intro x v; rfl
  | cons y rest ih =>
    intro x v
    simp only [List.cons_append, List.length_cons, List.set_cons_succ]
    rw [ih]

/-- A successful `List.lookup` exhibits its key/value pair as a member
of the table. -/
theorem lookupMemPair {β : Type} :
    ∀ (tab : List (Nat × β)) (id : Nat) (a : β),
      List.lookup id tab = some a → (id, a) ∈ tab := by
  intro tab
  induction tab with
  | nil => intro id a h; simp [List.lookup] at h
  | cons hd rest ih =>
    intro id a h
    obtain ⟨k, b⟩ := hd
    rw [List.lookup] at h
    cases hbeq : (id == k) with
    | true =>
      rw [hbeq] at h
      injection h with h2
      subst h2
      have : id = k := by simpa using hbeq
      subst this
      exact List.mem_cons_self _ _
    | false =>
      rw [hbeq] at h
      exact List.mem_cons_of_mem _ (ih id a h)

/-- Every address stored in the scanner's tables is a live heap cell. -/
def scannerWF (h : Heap) (s : Scanner) : Prop :=
  (∀ p ∈ s.progPaths, p.2 < h.cells.length) ∧
  (∀ p ∈ s.mapPaths, p.2 < h.cells.length)

/-- C7: on a scanned, well-formed scanner state, `GetProgramPinnedPaths`
and `GetMapPinnedPaths` leave the scanner untouched and return a fresh
cell holding a copy of the stored path list (empty for an unknown ID);
overwriting that returned cell with anything changes neither the
contents behind any table entry nor what a repeated call for the same
ID returns. -/
theorem pinned_path_lists_are_copies :
    (∀ (h : Heap) (s : Scanner) (fs : BpfFS) (id : Nat)
        (h1 : Heap) (s1 : Scanner) (a1 : Nat),
      s.scanned = true → scannerWF h s →
      getProgramPinnedPaths h s fs id = (h1, s1, a1) →
      s1 = s ∧
      h1.read a1 = (match List.lookup id s.progPaths with
                    | some a => h.read a
                    | none => []) ∧
      ∀ v : List String,
        (∀ p ∈ s.progPaths, (h1.write a1 v).read p.2 = h.read p.2) ∧
        (∀ p ∈ s.mapPaths, (h1.write a1 v).read p.2 = h.read p.2) ∧
        ∀ (h3 : Heap) (s3 : Scanner) (a3 : Nat),
          getProgramPinnedPaths (h1.write a1 v) s1 fs id = (h3, s3, a3) →
          h3.read a3 = h1.read a1) ∧
    (∀ (h : Heap) (s : Scanner) (fs : BpfFS) (id : Nat)
        (h1 : Heap) (s1 : Scanner) (a1 : Nat),
      s.scanned = true → scannerWF h s →
      getMapPinnedPaths h s fs id = (h1, s1, a1) →
      s1 = s ∧
      h1.read a1 = (match List.lookup id s.mapPaths with
                    | some a => h.read a
                    | none => []) ∧
      ∀ v : List String,
        (∀ p ∈ s.progPaths, (h1.write a1 v).read p.2 = h.read p.2) ∧
        (∀ p ∈ s.mapPaths, (h1.write a1 v).read p.2 = h.read p.2) ∧
        ∀ (h3 : Heap) (s3 : Scanner) (a3 : Nat),
          getMapPinnedPaths (h1.write a1 v) s1 fs id = (h3, s3, a3) →
          h3.read a3 = h1.read a1) := by
  have readWriteAt : ∀ (h0 : Heap) (c v : List String) (b : Nat),
      b < h0.cells.length →
      (Heap.write ⟨h0.cells ++ [c]⟩ h0.cells.length v).read b = h0.read b := by
    intro h0 c v b hb
    simp only [Heap.write, Heap.read, setConcatLen]
    exact getDAppendLt h0.cells [v] b [] hb
  constructor
  · intro h s fs id h1 s1 a1 hscan hwf hEq
    simp only [getProgramPinnedPaths, ensureScanned, hscan, if_true] at hEq
    obtain ⟨hh1, hs1, ha1⟩ : _ ∧ s = s1 ∧ h.cells.length = a1 := by
      simpa [Heap.alloc, Prod.ext_iff] using hEq
    subst hh1
    subst hs1
    subst ha1
    refine ⟨rfl, getDConcatLen _ _ _, ?_⟩
    intro v
    refine ⟨?_, ?_, ?_⟩
    · intro p hp
      exact readWriteAt h _ v p.2 (hwf.1 p hp)
    · intro p hp
      exact readWriteAt h _ v p.2 (hwf.2 p hp)
    · intro h3 s3 a3 hEq2
      simp only [getProgramPinnedPaths, ensureScanned, hscan, if_true] at hEq2
      obtain ⟨hh3, hs3, ha3⟩ : _ = h3 ∧ s = s3 ∧ _ = a3 := by
        simpa [Heap.alloc, Prod.ext_iff] using hEq2
      subst hh3
      subst ha3
      cases hlook : List.lookup id s.progPaths with
      | none =>
        simp only [hlook]
        simp only [Heap.read, Heap.write, Heap.alloc]
        rw [getDConcatLen, getDConcatLen]
      | some a =>
        have hmem := lookupMemPair s.progPaths id a hlook
        have halt : a < h.cells.length := hwf.1 (id, a) hmem
        simp only [hlook]
        simp only [Heap.read, Heap.write, Heap.alloc]
        rw [getDConcatLen, getDConcatLen, setConcatLen]
        exact getDAppendLt h.cells [v] a [] halt
  · intro h s fs id h1 s1 a1 hscan hwf hEq
    simp only [getMapPinnedPaths, ensureScanned, hscan, if_true] at hEq
    obtain ⟨hh1, hs1, ha1⟩ : _ ∧ s = s1 ∧ h.cells.length = a1 := by
      simpa [Heap.alloc, Prod.ext_iff] using hEq
    subst hh1
    subst hs1
    subst ha1
    refine ⟨rfl, getDConcatLen _ _ _, ?_⟩
    intro v
    refine ⟨?_, ?_, ?_⟩
    · intro p hp
      exact readWriteAt h _ v p.2 (hwf.1 p hp)
    · intro p hp
      exact readWriteAt h _ v p.2 (hwf.2 p hp)
    · intro h3 s3 a3 hEq2
      simp only [getMapPinnedPaths, ensureScanned, hscan, if_true] at hEq2
      obtain ⟨hh3, hs3, ha3⟩ : _ = h3 ∧ s = s3 ∧ _ = a3 := by
        simpa [Heap.alloc, Prod.ext_iff] using hEq2
      subst hh3
      subst ha3
      cases hlook : List.lookup id s.mapPaths with
      | none =>
        simp only [hlook]
        simp only [Heap.read, Heap.write, Heap.alloc]
        rw [getDConcatLen, getDConcatLen]
      | some a =>
        have hmem := lookupMemPair s.mapPaths id a hlook
        have halt : a < h.cells.length := hwf.2 (id, a) hmem
        simp only [hlook]
        simp only [Heap.read, Heap.write, Heap.alloc]
        rw [getDConcatLen, getDConcatLen, setConcatLen]
        exact getDAppendLt h.cells [v] a [] halt

/-- C7 witness: on a concrete scanned state (program ID 1 pinned at one
path, stored in cell 0), overwriting the copy returned by
`GetProgramPinnedPaths` (cell 1) leaves the internal cell's contents
unchanged. -/
theorem pinned_path_copies_witness :
    (Heap.write (Heap.alloc ⟨[["/sys/fs/bpf/p"]]⟩ ["/sys/fs/bpf/p"]).1 1
        ["changed"]).read 0 =
      Heap.read ⟨[["/sys/fs/bpf/p"]]⟩ 0 := by
  have H := pinned_path_lists_are_copies.1 ⟨[["/sys/fs/bpf/p"]]⟩
      { progPaths := [(1, 0)], mapPaths := [], scanned := true }
      ⟨true, []⟩ 1
      (Heap.alloc ⟨[["/sys/fs/bpf/p"]]⟩ ["/sys/fs/bpf/p"]).1
      { progPaths := [(1, 0)], mapPaths := [], scanned := true } 1
      rfl (by constructor <;> decide) rfl
  exact ((H.2.2 ["changed"]).1 (1, 0) (by simp))

/-! ## C10 — FormatHexBytes / ParseHexBytes round trip -/

/-- Reading a whitespace-free word moves it wholesale into the current
accumulator. -/
theorem fieldsAux_word : ∀ (w : List Char),
    (∀ c ∈ w, isSpaceChar c = false) →
    ∀ (cur rest : List Char),
      fieldsAux cur (w ++ rest) = fieldsAux (w.reverse ++ cur) rest := by
  intro w
  induction w with
  | nil => intro _ cur rest; simp
  | cons c w2 ih =>
    intro hns cur rest
    have hc : isSpaceChar c = false := hns c (List.mem_cons_self c w2)
    have hrec := ih (fun d hd => hns d (List.mem_cons_of_mem c hd)) (c :: cur) rest
    calc fieldsAux cur ((c :: w2) ++ rest)
        = fieldsAux (c :: cur) (w2 ++ rest) := by
          simp only [List.cons_append, fieldsAux, hc]
          rfl
      _ = fieldsAux (w2.reverse ++ (c :: cur)) rest := hrec
      _ = fieldsAux ((c :: w2).reverse ++ cur) rest := by
          simp [List.append_assoc]

/-- `joinSpace` of a list headed by a nonempty word is nonempty. -/
theorem joinSpace_cons_ne (c : Char) (cs : List Char)
    (rest : List (List Char)) : joinSpace ((c :: cs) :: rest) ≠ [] := by
  cases rest <;> simp [joinSpace]

/-- Splitting the space-joined form of nonempty, whitespace-free words
recovers exactly those words. -/
theorem fields_joinSpace : ∀ (chunks : List (List Char)),
    (∀ p ∈ chunks, p ≠ [] ∧ ∀ c ∈ p, isSpaceChar c = false) →
    fields (joinSpace chunks) = chunks := by
  intro chunks
  induction chunks with
  | nil => intro _; rfl
  | cons p rest ih =>
    intro hcond
    obtain ⟨hpne, hpns⟩ := hcond p (List.mem_cons_self p rest)
    cases rest with
    | nil =>
      show fieldsAux [] (joinSpace [p]) = [p]
      have h1 : fieldsAux [] (p ++ []) = fieldsAux (p.reverse ++ []) [] :=
        fieldsAux_word p hpns [] []
      rw [List.append_nil, List.append_nil] at h1
      rw [show joinSpace [p] = p from rfl, h1]
      have hrne : p.reverse.isEmpty = false := by
        simpa [List.isEmpty_iff] using hpne
      simp [fieldsAux, hrne]
    | cons q rest2 =>
      show fieldsAux [] (p ++ ' ' :: joinSpace (q :: rest2)) = p :: q :: rest2
      rw [fieldsAux_word p hpns [] (' ' :: joinSpace (q :: rest2))]
      rw [List.append_nil]
      have hrne : p.reverse.isEmpty = false := by
        simpa [List.isEmpty_iff] using hpne
      have hsp : isSpaceChar ' ' = true := by decide
      simp only [fieldsAux, hsp, hrne, if_true, if_false, Bool.false_eq_true,
        List.reverse_reverse]
      have hih := ih fun r hr => hcond r (List.mem_cons_of_mem p hr)
      rw [fields] at hih
      rw [hih]

/-- Parsing the two-digit rendering of a byte recovers the byte. -/
theorem parseHexPart_byteHex (x : Nat) (hx : x < 256) :
    parseHexPart (byteHexChars x) = some x := by
  have h1 : x / 16 < 16 := by omega
  have h2 : x % 16 < 16 := by omega
  have hv : ∀ d, d < 16 → hexDigitVal (hexDigitChar d) = some d := by decide
  have hval : x / 16 * 16 + x % 16 = x := by omega
  simp [parseHexPart, byteHexChars, parseUint16Of8, parseHexAux,
    hv _ h1, hv _ h2, hval, hx]

/-- Parsing the rendered chunks of a byte list recovers the list. -/
theorem parseParts_format : ∀ (b : List Nat), (∀ x ∈ b, x < 256) →
    parseParts (b.map byteHexChars) = some b := by
  intro b
  induction b with
  | nil => intro _; rfl
  | cons x xs ih =>
    intro hb
    have hx := hb x (List.mem_cons_self x xs)
    have ih2 := ih fun y hy => hb y (List.mem_cons_of_mem x hy)
    simp [parseParts, parseHexPart_byteHex x hx, ih2]

/-- C10: rendering any byte slice with `FormatHexBytes` and parsing the
result with `ParseHexBytes` succeeds and returns the original bytes. -/
theorem parseHexBytes_formatHexBytes (b : List Nat)
    (hb : ∀ x ∈ b, x < 256) :
    parseHexBytes (formatHexBytes b) = some b := by
  cases b with
  | nil => decide
  | cons x xs =>
    have hchunk : ∀ p ∈ (x :: xs).map byteHexChars,
        p ≠ [] ∧ ∀ c ∈ p, isSpaceChar c = false := by
      intro p hp
      obtain ⟨y, hy, hpy⟩ := List.mem_map.mp hp
      have hy256 := hb y hy
      have hya : y / 16 < 16 := by omega
      have hyb : y % 16 < 16 := by omega
      have hsp : ∀ d, d < 16 → isSpaceChar (hexDigitChar d) = false := by decide
      subst hpy
      refine ⟨by simp [byteHexChars], ?_⟩
      intro c hc
      simp only [byteHexChars, List.mem_cons, List.mem_singleton,
        List.not_mem_nil, or_false] at hc
      rcases hc with h | h <;> subst h
      · exact hsp _ hya
      · exact hsp _ hyb
    have hjoin : joinSpace ((x :: xs).map byteHexChars) ≠ [] := by
      rw [List.map_cons]
      exact joinSpace_cons_ne _ _ _
    have hfmt : formatHexBytes (x :: xs) =
        String.mk (joinSpace ((x :: xs).map byteHexChars)) := by
      simp [formatHexBytes]
    rw [hfmt]
    have hne : String.mk (joinSpace ((x :: xs).map byteHexChars)) ≠ "" :=
      fun hcontra => hjoin (congrArg String.data hcontra)
    unfold parseHexBytes
    rw [if_neg hne]
    show parseParts (fields (joinSpace ((x :: xs).map byteHexChars))) =
        some (x :: xs)
    rw [fields_joinSpace _ hchunk]
    exact parseParts_format _ hb

/-- C10 witness: the round trip on a concrete byte slice. -/
theorem parse_format_round_trip_witness :
    parseHexBytes (formatHexBytes [0, 10, 255, 16]) =
      some [0, 10, 255, 16] :=
  parseHexBytes_formatHexBytes [0, 10, 255, 16] (by decide)

/-! ## C5 — GetByID on an absent ID classifies as NotFound

The absent-ID error surfaces through `pkg/errors`' classifiers, which
match wrapped ENOENT via `errors.Is` or the phrase "not found" in the
message; showing the same error is NOT classified as permission-denied
requires knowing that the decimal ID embedded in the message cannot
complete the phrase "permission denied", which the digit-splitting
lemmas below establish. -/

/-- `errorIs` on a non-wrap error is plain comparison. -/
theorem errorIs_msg_ne (t : List Char) (x : GoError)
    (h : GoError.msg t ≠ x) : errorIs (.msg t) x = false := if_neg h

/-- `errorIs` on a wrap unwraps one level. -/
theorem errorIs_wrap_eq (c : List Char) (inner target : GoError) :
    errorIs (.wrap c inner) target =
      ((if GoError.wrap c inner = target then true else false) ||
        errorIs inner target) := rfl

/-- A match deeper in the hay persists when material is prepended. -/
theorem containsSub_append_right : ∀ (xs ys pat : List Char),
    containsSub ys pat = true → containsSub (xs ++ ys) pat = true := by
  intro xs
  induction xs with
  | nil => intro ys pat h; simpa using h
  | cons c xs2 ih =>
    intro ys pat h
    simp only [List.cons_append, containsSub, List.append_eq]
    rw [ih ys pat h]
    simp

/-- A prefix test never looks past the pattern's length. -/
theorem leadsWith_append_of_le : ∀ (pat u w : List Char),
    pat.length ≤ u.length → leadsWith pat (u ++ w) = leadsWith pat u := by
  intro pat
  induction pat with
  | nil => intro u w _; rfl
  | cons p ps ih =>
    intro u w h
    cases u with
    | nil => simp at h
    | cons a u2 =>
      simp only [List.cons_append, leadsWith, List.append_eq]
      rw [ih u2 w (by simpa using h)]

/-- A digit-free pattern matching at the front of `u ++ mid ++ post`,
with `mid` a nonempty run of digits, fits inside `u`. -/
theorem leadsWith_digit_bound : ∀ (pat u mid post : List Char),
    mid ≠ [] → (∀ c ∈ mid, isDigitChar c = true) →
    (∀ c ∈ pat, isDigitChar c = false) →
    leadsWith pat (u ++ (mid ++ post)) = true →
    pat.length ≤ u.length := by
  intro pat
  induction pat with
  | nil => intro u mid post _ _ _ _; exact Nat.zero_le _
  | cons p ps ih =>
    intro u mid post hmne hmd hpd h
    cases u with
    | nil =>
      cases mid with
      | nil => exact absurd rfl hmne
      | cons m mid2 =>
        simp only [List.nil_append, List.cons_append, leadsWith,
          Bool.and_eq_true, beq_iff_eq] at h
        have h1 : isDigitChar p = false := hpd p (List.mem_cons_self p ps)
        have h2 : isDigitChar m = true := hmd m (List.mem_cons_self m mid2)
        rw [h.1] at h1
        rw [h1] at h2
        cases h2
    | cons a u2 =>
      simp only [List.cons_append, leadsWith, Bool.and_eq_true] at h
      have := ih u2 mid post hmne hmd
        (fun c hc => hpd c (List.mem_cons_of_mem p hc)) h.2
      simpa using Nat.succ_le_succ this

/-- A digit-free pattern occurring in `mid ++ post`, with `mid` all
digits, occurs in `post`. -/
theorem containsSub_digit_skip : ∀ (mid post pat : List Char),
    (∀ c ∈ mid, isDigitChar c = true) →
    (∀ c ∈ pat, isDigitChar c = false) → pat ≠ [] →
    containsSub (mid ++ post) pat = true → containsSub post pat = true := by
  intro mid
  induction mid with
  | nil => intro post pat _ _ _ h; simpa using h
  | cons m mid2 ih =>
    intro post pat hmd hpd hpne h
    simp only [List.cons_append, containsSub, Bool.or_eq_true] at h
    rcases h with h | h
    · cases pat with
      | nil => exact absurd rfl hpne
      | cons p ps =>
        simp only [leadsWith, Bool.and_eq_true, beq_iff_eq] at h
        have h1 : isDigitChar p = false := hpd p (List.mem_cons_self p ps)
        have h2 : isDigitChar m = true := hmd m (List.mem_cons_self m mid2)
        rw [h.1] at h1
        rw [h1] at h2
        cases h2
    · exact ih post pat (fun c hc => hmd c (List.mem_cons_of_mem m hc))
        hpd hpne h

/-- Key splitting lemma: a digit-free pattern occurring in
`pre ++ mid ++ post`, where `mid` is a nonempty run of digits, occurs
entirely inside `pre` or entirely inside `post`. -/
theorem containsSub_split : ∀ (pre mid post pat : List Char),
    mid ≠ [] → (∀ c ∈ mid, isDigitChar c = true) →
    (∀ c ∈ pat, isDigitChar c = false) → pat ≠ [] →
    containsSub (pre ++ (mid ++ post)) pat = true →
    containsSub pre pat = true ∨ containsSub post pat = true := by
  intro pre
  induction pre with
  | nil =>
    intro mid post pat hmne hmd hpd hpne h
    exact Or.inr (containsSub_digit_skip mid post pat hmd hpd hpne
      (by simpa using h))
  | cons c pre2 ih =>
    intro mid post pat hmne hmd hpd hpne h
    simp only [List.cons_append, containsSub, Bool.or_eq_true] at h
    rcases h with h | h
    · have hlw : leadsWith pat ((c :: pre2) ++ (mid ++ post)) = true := by
        simpa using h
      have hlen := leadsWith_digit_bound pat (c :: pre2) mid post hmne hmd hpd hlw
      rw [leadsWith_append_of_le pat (c :: pre2) (mid ++ post) hlen] at hlw
      left
      simp only [containsSub]
      rw [hlw]
      simp
    · rcases ih mid post pat hmne hmd hpd hpne h with h2 | h2
      · left
        simp only [containsSub]
        rw [h2]
        simp
      · exact Or.inr h2

/-- Packaging of the splitting lemma as a non-occurrence result. -/
theorem not_contains_around_digits (pre post pat mid : List Char)
    (hmne : mid ≠ []) (hmd : ∀ c ∈ mid, isDigitChar c = true)
    (hpd : ∀ c ∈ pat, isDigitChar c = false) (hpne : pat ≠ [])
    (h1 : containsSub pre pat = false) (h2 : containsSub post pat = false) :
    containsSub (pre ++ (mid ++ post)) pat = false := by
  cases hc : containsSub (pre ++ (mid ++ post)) pat
  · rfl
  · rcases containsSub_split pre mid post pat hmne hmd hpd hpne hc with h | h
    · rw [h1] at h; cases h
    · rw [h2] at h; cases h

/-- `digitChar` of a digit value is an ASCII digit character. -/
theorem digitChar_isDigit : ∀ d, d < 10 → isDigitChar (digitChar d) = true := by
  decide

/-- Every character the decimal renderer may emit is a digit. -/
theorem natCharsAux_all_digits : ∀ (fuel n : Nat) (acc : List Char),
    (∀ c ∈ acc, isDigitChar c = true) →
    ∀ c ∈ natCharsAux fuel n acc, isDigitChar c = true := by
  intro fuel
  induction fuel with
  | zero => intro n acc hacc; exact hacc
  | succ fuel2 ih =>
    intro n acc hacc c hc
    rw [natCharsAux] at hc
    by_cases hn : n < 10
    · rw [if_pos hn] at hc
      rcases List.mem_cons.mp hc with h | h
      · subst h; exact digitChar_isDigit n hn
      · exact hacc c h
    · rw [if_neg hn] at hc
      refine ih (n / 10) (digitChar (n % 10) :: acc) ?_ c hc
      intro d hd
      rcases List.mem_cons.mp hd with h | h
      · subst h; exact digitChar_isDigit _ (Nat.mod_lt n (by omega))
      · exact hacc d h

/-- The decimal rendering consists of digit characters. -/
theorem natChars_all_digits (n : Nat) :
    ∀ c ∈ natChars n, isDigitChar c = true :=
  natCharsAux_all_digits (n + 1) n [] (by intro c hc; cases hc)

/-- The renderer only returns its accumulator when out of fuel. -/
theorem natCharsAux_eq_nil : ∀ (fuel n : Nat) (acc : List Char),
    natCharsAux fuel n acc = [] → acc = [] ∧ fuel = 0 := by
  intro fuel
  induction fuel with
  | zero => intro n acc h; exact ⟨h, rfl⟩
  | succ fuel2 ih =>
    intro n acc h
    rw [natCharsAux] at h
    by_cases hn : n < 10
    · rw [if_pos hn] at h; cases h
    · rw [if_neg hn] at h
      obtain ⟨h1, _⟩ := ih (n / 10) (digitChar (n % 10) :: acc) h
      cases h1

/-- A decimal rendering is never empty. -/
theorem natChars_ne_nil (n : Nat) : natChars n ≠ [] := by
  intro h
  obtain ⟨_, hf⟩ := natCharsAux_eq_nil (n + 1) n [] h
  cases hf

/-- Lowercasing fixes ASCII digits. -/
theorem toLower_digit (c : Char) (h : isDigitChar c = true) :
    c.toLower = c := by
  unfold Char.toLower
  have h2 : ¬(Char.toNat c ≥ 65 ∧ Char.toNat c ≤ 90) := by
    simp only [isDigitChar, Bool.and_eq_true, decide_eq_true_eq] at h
    omega
  rw [if_neg h2]

/-- Lowercasing fixes the decimal rendering of a number. -/
theorem map_toLower_natChars (n : Nat) :
    List.map Char.toLower (natChars n) = natChars n := by
  have : ∀ (l : List Char), (∀ c ∈ l, isDigitChar c = true) →
      List.map Char.toLower l = l := by
    intro l
    induction l with
    | nil => intro _; rfl
    | cons c t ih =>
      intro hl
      simp only [List.map_cons]
      rw [toLower_digit c (hl c (List.mem_cons_self c t)),
        ih fun d hd => hl d (List.mem_cons_of_mem c hd)]
  exact this (natChars n) (natChars_all_digits n)

/-- The absent-program message `program with ID <id> not found` is
classified not-found (it contains "not found") and never
permission-denied (the decimal ID cannot complete either permission
phrase). -/
theorem progMsg_classified (id : Nat) :
    isNotFoundError (.msg ("program with ID ".toList ++ natChars id ++
      " not found".toList)) = true ∧
    isPermissionError (.msg ("program with ID ".toList ++ natChars id ++
      " not found".toList)) = false := by
  have hnf : containsSub (toLowerL ("program with ID ".toList ++ natChars id ++
      " not found".toList)) "not found".toList = true := by
    rw [toLowerL, List.map_append]
    apply containsSub_append_right
    decide
  have hpat1 : containsSub (toLowerL ("program with ID ".toList ++ natChars id ++
      " not found".toList)) "permission denied".toList = false := by
    rw [toLowerL, List.map_append, List.map_append, map_toLower_natChars,
      List.append_assoc]
    exact not_contains_around_digits _ _ _ _ (natChars_ne_nil id)
      (natChars_all_digits id) (by decide) (by decide) (by decide) (by decide)
  have hpat2 : containsSub (toLowerL ("program with ID ".toList ++ natChars id ++
      " not found".toList)) "operation not permitted".toList = false := by
    rw [toLowerL, List.map_append, List.map_append, map_toLower_natChars,
      List.append_assoc]
    exact not_contains_around_digits _ _ _ _ (natChars_ne_nil id)
      (natChars_all_digits id) (by decide) (by decide) (by decide) (by decide)
  constructor
  · unfold isNotFoundError
    simp only [GoError.message]
    rw [hnf]
    simp
  · unfold isPermissionError
    simp only [GoError.message]
    rw [errorIs_msg_ne _ _ (by simp), errorIs_msg_ne _ _ (by simp),
      errorIs_msg_ne _ _ (by simp), hpat1, hpat2]
    rfl

/-- The absent-map error `failed to get map by ID <id>: %w`-wrapping
ENOENT is classified not-found (via `errors.Is` on ENOENT) and never
permission-denied. -/
theorem mapWrap_classified (id : Nat) :
    isNotFoundError (.wrap ("failed to get map by ID ".toList ++ natChars id)
      .enoent) = true ∧
    isPermissionError (.wrap ("failed to get map by ID ".toList ++ natChars id)
      .enoent) = false := by
  have h3 : errorIs (.wrap ("failed to get map by ID ".toList ++ natChars id)
      GoError.enoent) .enoent = true := by
    rw [errorIs_wrap_eq]
    simp [errorIs]
  have hA : errorIs (.wrap ("failed to get map by ID ".toList ++ natChars id)
      GoError.enoent) .errPermission = false := by
    rw [errorIs_wrap_eq]
    simp [errorIs]
  have hB : errorIs (.wrap ("failed to get map by ID ".toList ++ natChars id)
      GoError.enoent) .eperm = false := by
    rw [errorIs_wrap_eq]
    simp [errorIs]
  have hC : errorIs (.wrap ("failed to get map by ID ".toList ++ natChars id)
      GoError.enoent) .eacces = false := by
    rw [errorIs_wrap_eq]
    simp [errorIs]
  have hpat1 : containsSub (toLowerL (("failed to get map by ID ".toList ++
      natChars id) ++ ": ".toList ++ "no such file or directory".toList))
      "permission denied".toList = false := by
    rw [toLowerL, List.map_append, List.map_append, List.map_append,
      map_toLower_natChars]
    simp only [List.append_assoc]
    exact not_contains_around_digits _ _ _ _ (natChars_ne_nil id)
      (natChars_all_digits id) (by decide) (by decide) (by decide) (by decide)
  have hpat2 : containsSub (toLowerL (("failed to get map by ID ".toList ++
      natChars id) ++ ": ".toList ++ "no such file or directory".toList))
      "operation not permitted".toList = false := by
    rw [toLowerL, List.map_append, List.map_append, List.map_append,
      map_toLower_natChars]
    simp only [List.append_assoc]
    exact not_contains_around_digits _ _ _ _ (natChars_ne_nil id)
      (natChars_all_digits id) (by decide) (by decide) (by decide) (by decide)
  constructor
  · unfold isNotFoundError
    rw [h3]
    simp
  · unfold isPermissionError
    simp only [GoError.message]
    rw [hA, hB, hC, hpat1, hpat2]
    rfl

/-- C5: when the kernel reports an absent ID (bare ENOENT from the
open-by-ID primitive), `GetByID` — program and map engines alike —
fails with an error the system's own classifiers recognise as
*NotFound* and not as *PermissionDenied* (nor, being positively
classified, as a merely generic failure). -/
theorem getByID_absent_id_not_found
    (penv : ProgEnv) (menv : MapEnv) (now : Int) (idp idm : Nat)
    (hp : penv.newProgramFromID idp = .error .enoent)
    (hm : menv.newMapFromID idm = .error .enoent) :
    (progGetByID penv now idp =
      .error (.msg ("program with ID ".toList ++ natChars idp ++
        " not found".toList)) ∧
     isNotFoundError (.msg ("program with ID ".toList ++ natChars idp ++
        " not found".toList)) = true ∧
     isPermissionError (.msg ("program with ID ".toList ++ natChars idp ++
        " not found".toList)) = false) ∧
    (mapsGetByID menv idm =
      .error (.wrap ("failed to get map by ID ".toList ++ natChars idm)
        .enoent) ∧
     isNotFoundError (.wrap ("failed to get map by ID ".toList ++ natChars idm)
        .enoent) = true ∧
     isPermissionError (.wrap ("failed to get map by ID ".toList ++
        natChars idm) .enoent) = false) := by
  refine ⟨⟨?_, (progMsg_classified idp).1, (progMsg_classified idp).2⟩,
          ⟨?_, (mapWrap_classified idm).1, (mapWrap_classified idm).2⟩⟩
  · simp only [progGetByID, hp]
    rfl
  · simp only [mapsGetByID, hm]

/-- C5 witness: the classifications at the concrete absent ID 7. -/
theorem getByID_absent_witness :
    isNotFoundError (GoError.msg ("program with ID ".toList ++ natChars 7 ++
      " not found".toList)) = true ∧
    isPermissionError (GoError.wrap ("failed to get map by ID ".toList ++
      natChars 7) GoError.enoent) = false :=
  ⟨(getByID_absent_id_not_found cProgEnv cMapEnv 0 7 7
      (by decide) (by decide)).1.2.1,
   (getByID_absent_id_not_found cProgEnv cMapEnv 0 7 7
      (by decide) (by decide)).2.2.2⟩
